import Mathlib

/-!
# httpx: a composable client pipeline

A shallow embedding of `client.go` (the `Client` interface, the `ClientFunc`
adapter, `DoRequestWithContext`, `DoRequest`) and of the decorators of
`client_test.go`, followed by theorems about them.

Conventions of the embedding

* A Go call that may have side effects is a function of an explicit world
  state `σ` (the transport, the network, anything the innermost client
  touches).  It returns the new world together with either a value or a
  run-time panic.
* `*http.Request` arguments are passed in and out: a `Do` call receives the
  request object and returns the state of that object after the call, because
  decorators mutate it in place.  Request pointers are taken to be non-nil.
* `*http.Response` is nullable and so are `error` and `context.Context`
  arguments: they are `Option`s, `none` being `nil`.
* Functions of the Go standard library (`http.NewRequestWithContext`,
  `textproto.CanonicalMIMEHeaderKey`, `strconv.Quote`, `json.Marshal`,
  `json.Decoder.Decode`) are parameters of the embedding.  For the round trip
  through JSON, `encoding/json` is in addition modelled concretely at `MyType`.
-/

namespace Httpx

/-! ## Data model -/

/-- Byte content of a stream (`io.Reader`), one number per byte. -/
abbrev Bytes := List Nat

/-- Go `error` values.  `sentinel` is a package-level error variable (created
once, compared by identity), `errorString` an error allocated by a call of
`errors.New` or of `fmt.Errorf` without `%w`, `wrapError` the result of
`fmt.Errorf` with one `%w` verb, `foreign` an error of the transport or of the
standard library. -/
inductive Error where
  | sentinel (msg : String)
  | errorString (msg : String)
  | wrapError (msg : String) (err : Error)
  | foreign (msg : String)
  deriving DecidableEq, Repr

/-- Method `Error()` of an error, its message (named `errorText` because
`Error.Error` would shadow the type inside its own namespace). -/
def Error.errorText : Error → String
  | .sentinel msg => msg
  | .errorString msg => msg
  | .wrapError msg _ => msg
  | .foreign msg => msg

/-- Method `Unwrap()`: only the value built by `%w` has one. -/
def Error.Unwrap : Error → Option Error
  | .wrapError _ err => some err
  | _ => none

/-- Go `errors.Is err target`: walk the `Unwrap` chain of `err` looking for
`target`. -/
def Error.Is : Error → Error → Bool
  | .wrapError msg err, target =>
    if Error.wrapError msg err = target then true else Error.Is err target
  | e, target => decide (e = target)

/-- Go `context.Context` values used by the package and its example. -/
inductive Context where
  | Background
  | TODO
  | WithTimeout (parent : Context) (nanos : Nat)
  | WithCancel (parent : Context)
  deriving DecidableEq, Repr

/-- Whether the context has a deadline (second result of `Deadline()`). -/
def Context.hasDeadline : Context → Bool
  | .Background => false
  | .TODO => false
  | .WithTimeout _ _ => true
  | .WithCancel parent => parent.hasDeadline

/-- Whether the context can ever be cancelled (`Done()` is a non-nil channel). -/
def Context.canCancel : Context → Bool
  | .Background => false
  | .TODO => false
  | .WithTimeout _ _ => true
  | .WithCancel _ => true

/-- Go `http.Header`, a `map[string][]string`: a key is absent (`none`) or
bound to a sequence of values.  Maps are compared extensionally. -/
abbrev Header := String → Option (List String)

/-- The empty, non-nil map `make(http.Header)`. -/
def Header.empty : Header := fun _ => none

/-- `Header.Add` on a non-nil map: `h[canon key] = append(h[canon key], value)`;
`canon` is `textproto.CanonicalMIMEHeaderKey`. -/
def Header.Add (canon : String → String) (h : Header) (key value : String) : Header :=
  fun k => if k = canon key then some ((h k).getD [] ++ [value]) else h k

/-- `Header.Get` of a possibly nil map (`none`): the first value under the
canonical key, `""` when there is none. -/
def Header.Get (canon : String → String) (h : Option Header) (key : String) : String :=
  match h with
  | none => ""
  | some m =>
    match m (canon key) with
    | none => ""
    | some [] => ""
    | some (v :: _) => v

/-- The fields of `http.Request` the package reads or writes. -/
structure Request where
  Method : String
  URL : String
  Header : Option Header
  Body : Option Bytes
  ctx : Context

/-- The fields of `http.Response` the package reads. -/
structure Response where
  StatusCode : Int
  Header : Option Header
  Body : Option Bytes

/-- A run-time panic. -/
inductive Panic where
  | nilDereference
  | nilMapAssignment
  | other (msg : String)
  deriving DecidableEq, Repr

/-- A Go call over the world state `σ`: the value it returns, or a panic, and
the world it leaves. -/
abbrev Exec (σ : Type) (α : Type) := σ → Except Panic α × σ

/-- What a `Do` call leaves: the request object after the call, and the
`(*http.Response, error)` pair returned. -/
structure Reply where
  req : Request
  resp : Option Response
  err : Option Error

/-- The parameters standing for the Go standard library. -/
structure Stdlib where
  NewRequestWithContext :
    Option Context → String → String → Option Bytes → Except Error Request
  CanonicalHeaderKey : String → String
  Quote : String → String

/-! ## client.go -/

/-- Interface `Client`: anything with a `Do` method. -/
structure Client (σ : Type) where
  Do : Request → Exec σ Reply

/-- Type `ClientFunc`: a function with the signature of `Do`. -/
def ClientFunc (σ : Type) : Type := Request → Exec σ Reply

/-- Method `ClientFunc.Do`: `return c(req)`. -/
def ClientFunc.Do {σ : Type} (c : ClientFunc σ) (req : Request) : Exec σ Reply :=
  c req

/-- The implicit conversion of a `ClientFunc` to the interface `Client`. -/
def ClientFunc.toClient {σ : Type} (c : ClientFunc σ) : Client σ :=
  ⟨c.Do⟩

/-- `DoRequestWithContext`: build the request, return `nil, err` when that
fails, else `client.Do(req)`. -/
def DoRequestWithContext {σ : Type} (std : Stdlib) (ctx : Option Context) (client : Client σ)
    (method url : String) (body : Option Bytes) : Exec σ (Option Response × Option Error) :=
  fun s =>
    match std.NewRequestWithContext ctx method url body with
    | .error err => (.ok (none, some err), s)
    | .ok req =>
      match client.Do req s with
      | (.error p, s') => (.error p, s')
      | (.ok out, s') => (.ok (out.resp, out.err), s')

/-- `DoRequest`: `DoRequestWithContext` with `context.Background()`. -/
def DoRequest {σ : Type} (std : Stdlib) (client : Client σ)
    (method url : String) (body : Option Bytes) : Exec σ (Option Response × Option Error) :=
  DoRequestWithContext std (some Context.Background) client method url body

/-- Instrumentation: the same client over a world extended with the list of the
requests it has been invoked with, in order. -/
def Client.traced {σ : Type} (c : Client σ) : Client (List Request × σ) :=
  ⟨fun r s =>
    match c.Do r s.2 with
    | (out, s') => (out, (s.1 ++ [r], s'))⟩

/-! ## client_test.go -/

/-- Package variable `ErrInvalidCode`. -/
def ErrInvalidCode : Error := Error.sentinel "invalid status code"

/-- Package variable `ErrMissingBody`. -/
def ErrMissingBody : Error := Error.sentinel "missing body in response"

/-- Method `Request.Clone(ctx)` for a non-nil `ctx`: a copy of the request
carrying `ctx`. -/
def Request.Clone (r : Request) (ctx : Context) : Request :=
  { r with ctx := ctx }

/-- `DecorateWithContext`: `client.Do(r.Clone(parent))`.  `Clone` panics on a
nil context; the clone is a new object, so `r` itself is left as it was. -/
def DecorateWithContext {σ : Type} (parent : Option Context) (client : Client σ) :
    ClientFunc σ :=
  fun r s =>
    match parent with
    | none => (.error (Panic.other "nil context"), s)
    | some ctx =>
      match client.Do (r.Clone ctx) s with
      | (.error p, s') => (.error p, s')
      | (.ok out, s') => (.ok { req := r, resp := out.resp, err := out.err }, s')

/-- `DecorateWithJSONBody`: marshal `body`; on failure `return nil, err`, else
set `r.Body` to a reader over the bytes and `return client.Do(r)`.
`Marshal` is `json.Marshal` at the type of `body`. -/
def DecorateWithJSONBody {σ β : Type} (Marshal : β → Except Error Bytes)
    (client : Client σ) (body : β) : ClientFunc σ :=
  fun r s =>
    match Marshal body with
    | .error err => (.ok { req := r, resp := none, err := some err }, s)
    | .ok b => client.Do { r with Body := some b } s

/-- `DecorateWithHeader`: `r.Header.Add(key, value)` then `return client.Do(r)`.
Adding to a nil map panics. -/
def DecorateWithHeader {σ : Type} (std : Stdlib) (client : Client σ) (key value : String) :
    ClientFunc σ :=
  fun r s =>
    match r.Header with
    | none => (.error Panic.nilMapAssignment, s)
    | some h =>
      client.Do { r with Header := some (Header.Add std.CanonicalHeaderKey h key value) } s

/-- The error `fmt.Errorf("%w: expected %d, got %d", ErrInvalidCode, code, got)`. -/
def invalidCodeError (code got : Int) : Error :=
  Error.wrapError
    (ErrInvalidCode.errorText ++ ": expected " ++ toString code ++ ", got " ++ toString got)
    ErrInvalidCode

/-- `DecorateCheckStatus`. -/
def DecorateCheckStatus {σ : Type} (client : Client σ) (code : Int) : ClientFunc σ :=
  fun r s =>
    match client.Do r s with
    | (.error p, s') => (.error p, s')
    | (.ok out, s') =>
      match out.err with
      | some err => (.ok { req := out.req, resp := out.resp, err := some err }, s')
      | none =>
        match out.resp with
        | none => (.error Panic.nilDereference, s')
        | some resp =>
          if resp.StatusCode ≠ code then
            (.ok { req := out.req, resp := some resp,
                   err := some (invalidCodeError code resp.StatusCode) }, s')
          else
            (.ok { req := out.req, resp := some resp, err := none }, s')

/-- `DecorateCheckBody`. -/
def DecorateCheckBody {σ : Type} (client : Client σ) : ClientFunc σ :=
  fun r s =>
    match client.Do r s with
    | (.error p, s') => (.error p, s')
    | (.ok out, s') =>
      match out.err with
      | some err => (.ok { req := out.req, resp := out.resp, err := some err }, s')
      | none =>
        match out.resp with
        | none => (.error Panic.nilDereference, s')
        | some resp =>
          if resp.Body = none then
            (.ok { req := out.req, resp := some resp, err := some ErrMissingBody }, s')
          else
            (.ok { req := out.req, resp := some resp, err := none }, s')

/-- The error `fmt.Errorf("received errors in header: %q", errs)`; `quote` is
the rendering of `%q` (`strconv.Quote`). -/
def headerError (quote : String → String) (errs : String) : Error :=
  Error.errorString ("received errors in header: " ++ quote errs)

/-- `DecorateCheckHeaderError`. -/
def DecorateCheckHeaderError {σ : Type} (std : Stdlib) (client : Client σ) : ClientFunc σ :=
  fun r s =>
    match client.Do r s with
    | (.error p, s') => (.error p, s')
    | (.ok out, s') =>
      match out.err with
      | some err => (.ok { req := out.req, resp := out.resp, err := some err }, s')
      | none =>
        match out.resp with
        | none => (.error Panic.nilDereference, s')
        | some resp =>
          if Header.Get std.CanonicalHeaderKey resp.Header "ERRORS" ≠ "" then
            (.ok { req := out.req, resp := some resp,
                   err := some (headerError std.Quote
                     (Header.Get std.CanonicalHeaderKey resp.Header "ERRORS")) }, s')
          else
            (.ok { req := out.req, resp := some resp, err := none }, s')

/-- What `json.NewDecoder(body).Decode(dst)` leaves: the error returned, the
destination after the call and the unread rest of the stream. -/
structure Decoded (δ : Type) where
  err : Option Error
  dst : δ
  rest : Bytes

/-- `DecorateDecodeJSON`.  The destination `dst` is a pointer held by the
closure: the object it points to is the second component of the world.
`Decode` is `json.NewDecoder(_).Decode(_)` at the type of that object; decoding
from a nil body calls `Read` on a nil reader and panics. -/
def DecorateDecodeJSON {σ δ : Type} (Decode : Bytes → δ → Decoded δ)
    (client : Client σ) : ClientFunc (σ × δ) :=
  fun r w =>
    match client.Do r w.1 with
    | (.error p, s') => (.error p, (s', w.2))
    | (.ok out, s') =>
      match out.err with
      | some err => (.ok { req := out.req, resp := out.resp, err := some err }, (s', w.2))
      | none =>
        match out.resp with
        | none => (.error Panic.nilDereference, (s', w.2))
        | some resp =>
          match resp.Body with
          | none => (.error Panic.nilDereference, (s', w.2))
          | some b =>
            (.ok { req := out.req,
                   resp := some { resp with Body := some (Decode b w.2).rest },
                   err := (Decode b w.2).err }, (s', (Decode b w.2).dst))

/-- Type `MyType`. -/
structure MyType where
  Foo : String
  Bar : String
  deriving DecidableEq, Repr

/-- `PostValue`. -/
def PostValue {σ β : Type} (std : Stdlib) (Marshal : β → Except Error Bytes)
    (client : Client σ) (addr : String) (body : β) : Exec σ (Option Error) :=
  fun s =>
    match DoRequest std
        (DecorateWithHeader std (DecorateWithJSONBody Marshal client body).toClient
          "X-CUSTOM-HEADER" "my-header").toClient
        "POST" addr none s with
    | (.error p, s') => (.error p, s')
    | (.ok (_, some err), s') => (.ok (some err), s')
    | (.ok (_, none), s') => (.ok none, s')

/-- `GetValue`: `t := &MyType{}`, decorate, `DoRequest`, then
`resp.Body.Close()` (a nil `resp` or a nil `resp.Body` panics there), then
`return t, err`. -/
def GetValue {σ : Type} (std : Stdlib) (Decode : Bytes → MyType → Decoded MyType)
    (client : Client σ) (addr : String) : Exec σ (MyType × Option Error) :=
  fun s =>
    match DoRequest std (DecorateDecodeJSON Decode client).toClient "GET" addr none
        (s, { Foo := "", Bar := "" }) with
    | (.error p, w) => (.error p, w.1)
    | (.ok (resp, err), w) =>
      match resp with
      | none => (.error Panic.nilDereference, w.1)
      | some resp =>
        match resp.Body with
        | none => (.error Panic.nilDereference, w.1)
        | some _ => (.ok (w.2, err), w.1)

/-! ## Concrete instances, for evaluating the definitions -/

/-- A header key with the first letter and every letter after a `-` in upper
case and the others in lower case. -/
def canonChars : Bool → List Char → List Char
  | _, [] => []
  | up, c :: cs => (if up then c.toUpper else c.toLower) :: canonChars (c == '-') cs

/-- A small instance of the library parameters.  Request construction fails on
a nil context and on an address that starts with `:` (no protocol scheme), an
empty method stands for `GET`, header keys are canonicalised letter by letter
and `%q` puts its argument between double quotes. -/
def Stdlib.sample : Stdlib where
  NewRequestWithContext := fun ctx method url body =>
    match ctx with
    | none => .error (Error.foreign "net/http: nil Context")
    | some c =>
      if url.data.head? = some ':' then
        .error (Error.foreign "parse: missing protocol scheme")
      else
        .ok { Method := if method = "" then "GET" else method, URL := url,
              Header := some Header.empty, Body := body, ctx := c }
  CanonicalHeaderKey := fun k => String.mk (canonChars true k.data)
  Quote := fun x => "\"" ++ x ++ "\""

/-- A transport that answers every request with the given response and counts
its invocations in the world. -/
def answering (resp : Response) : Client Nat :=
  ⟨fun r n => (.ok { req := r, resp := some resp, err := none }, n + 1)⟩

/-- A transport that fails every request with the given error and a nil
response, counting its invocations in the world. -/
def failing (e : Error) : Client Nat :=
  ⟨fun r n => (.ok { req := r, resp := none, err := some e }, n + 1)⟩

/-- A request with an empty header map and no body. -/
def plainRequest : Request :=
  { Method := "GET", URL := "http://example.com/my/api", Header := some Header.empty,
    Body := none, ctx := Context.Background }

/-- The bytes of an ASCII text. -/
def asciiBytes (x : String) : Bytes := x.data.map Char.toNat

/-- Values handed to the body encoder: a `MyType`, or a channel, which
`json.Marshal` refuses. -/
inductive Payload where
  | value (m : MyType)
  | channel
  deriving DecidableEq, Repr

/-- Read the expected bytes off the front of a stream. -/
def expect : Bytes → Bytes → Option Bytes
  | [], bs => some bs
  | _ :: _, [] => none
  | p :: ps, b :: bs => if p = b then expect ps bs else none

/-! ### A model of `encoding/json` at `MyType`

`json.Marshal` and the decoder belong to the Go standard library.  Their
behaviour on a `MyType` is modelled here byte for byte: an object with the
members `foo` and `bar`, strings escaped the way `json.Marshal` escapes them
(HTML escaping on) and otherwise written in UTF-8.  Go strings are taken to be
valid UTF-8, which is what a Lean `String` is. -/

/-- The UTF-8 bytes of the code point `n`. -/
def utf8Bytes (n : Nat) : Bytes :=
  if n < 128 then [n]
  else if n < 2048 then [192 + n / 64, 128 + n % 64]
  else if n < 65536 then [224 + n / 4096, 128 + n / 64 % 64, 128 + n % 64]
  else [240 + n / 262144, 128 + n / 4096 % 64, 128 + n / 64 % 64, 128 + n % 64]

/-- The lower-case hexadecimal digit of `n < 16`, as a byte. -/
def hexDigit (n : Nat) : Nat := if n < 10 then 48 + n else 87 + n

/-- The bytes `json.Marshal` writes for one character of a string: a backslash
before `"` and `\`, the short escapes of line feed, carriage return and tab,
`\u00xx` for the other control characters and for `<`, `>`, `&`, `\u2028` and
`\u2029` for the two separators, and the UTF-8 bytes of anything else.  (From
Go 1.22 on, backspace and form feed are written `\b` and `\f`; the decoder
below reads both forms.) -/
def encodeRune (c : Char) : Bytes :=
  if c.toNat = 34 then [92, 34]
  else if c.toNat = 92 then [92, 92]
  else if c.toNat = 10 then [92, 110]
  else if c.toNat = 13 then [92, 114]
  else if c.toNat = 9 then [92, 116]
  else if c.toNat < 32 ∨ c.toNat = 60 ∨ c.toNat = 62 ∨ c.toNat = 38 then
    [92, 117, 48, 48, hexDigit (c.toNat / 16), hexDigit (c.toNat % 16)]
  else if c.toNat = 8232 ∨ c.toNat = 8233 then
    [92, 117, 50, 48, 50, hexDigit (c.toNat % 16)]
  else utf8Bytes c.toNat

/-- The bytes written for the characters of a string, in order. -/
def encodeRunes : List Char → Bytes
  | [] => []
  | c :: cs => encodeRune c ++ encodeRunes cs

/-- A JSON string: the escaped characters between two double quotes. -/
def encodeString (x : String) : Bytes := 34 :: (encodeRunes x.data ++ [34])

/-- The bytes `json.Marshal` writes for a `MyType`: the members `foo` and
`bar`, named by the field tags, in the order of the fields. -/
def marshalMyType (m : MyType) : Bytes :=
  asciiBytes "\x7b\"foo\":" ++ encodeString m.Foo ++ asciiBytes ",\"bar\":"
    ++ encodeString m.Bar ++ asciiBytes "\x7d"

/-- `json.Marshal` on a `Payload`: the object of a `MyType`, an
unsupported-type error for a channel. -/
def jsonMarshal : Payload → Except Error Bytes
  | .value m => .ok (marshalMyType m)
  | .channel => .error (Error.foreign "json: unsupported type: chan int")

/-- The value of a hexadecimal digit, in either case. -/
def hexValue (b : Nat) : Option Nat :=
  if 48 ≤ b ∧ b ≤ 57 then some (b - 48)
  else if 97 ≤ b ∧ b ≤ 102 then some (b - 87)
  else if 65 ≤ b ∧ b ≤ 70 then some (b - 55)
  else none

/-- The value of four hexadecimal digits. -/
def hex4 (a b c d : Nat) : Option Nat :=
  (hexValue a).bind fun x => (hexValue b).bind fun y => (hexValue c).bind fun z =>
    (hexValue d).map fun w => 4096 * x + 256 * y + 16 * z + w

/-- The replacement character U+FFFD. -/
def replacement : Char := Char.ofNat 65533

/-- Whether `b` is a UTF-8 continuation byte. -/
def isCont (b : Nat) : Bool := decide (128 ≤ b ∧ b < 192)

/-- Read one character that starts with the non-ASCII byte `b`, followed by
`rest`.  An ill-formed sequence (a stray or missing continuation byte, an
overlong form, a surrogate, a value past U+10FFFF) is read as the replacement
character and consumes `b` alone, as the Go decoder does. -/
def readUtf8 (b : Nat) (rest : Bytes) : Char × Bytes :=
  if 194 ≤ b ∧ b < 224 then
    match rest with
    | b1 :: r =>
      if isCont b1 then (Char.ofNat ((b - 192) * 64 + (b1 - 128)), r) else (replacement, rest)
    | _ => (replacement, rest)
  else if 224 ≤ b ∧ b < 240 then
    match rest with
    | b1 :: b2 :: r =>
      if isCont b1 ∧ isCont b2 ∧
          2048 ≤ (b - 224) * 4096 + (b1 - 128) * 64 + (b2 - 128) ∧
          ¬ (55296 ≤ (b - 224) * 4096 + (b1 - 128) * 64 + (b2 - 128) ∧
             (b - 224) * 4096 + (b1 - 128) * 64 + (b2 - 128) < 57344) then
        (Char.ofNat ((b - 224) * 4096 + (b1 - 128) * 64 + (b2 - 128)), r)
      else (replacement, rest)
    | _ => (replacement, rest)
  else if 240 ≤ b ∧ b < 245 then
    match rest with
    | b1 :: b2 :: b3 :: r =>
      if isCont b1 ∧ isCont b2 ∧ isCont b3 ∧
          65536 ≤ (b - 240) * 262144 + (b1 - 128) * 4096 + (b2 - 128) * 64 + (b3 - 128) ∧
          (b - 240) * 262144 + (b1 - 128) * 4096 + (b2 - 128) * 64 + (b3 - 128) < 1114112 then
        (Char.ofNat ((b - 240) * 262144 + (b1 - 128) * 4096 + (b2 - 128) * 64 + (b3 - 128)), r)
      else (replacement, rest)
    | _ => (replacement, rest)
  else (replacement, rest)

/-- The character a one-letter escape stands for. -/
def unescape (e : Nat) : Option Char :=
  if e = 34 then some (Char.ofNat 34)
  else if e = 92 then some (Char.ofNat 92)
  else if e = 47 then some (Char.ofNat 47)
  else if e = 98 then some (Char.ofNat 8)
  else if e = 102 then some (Char.ofNat 12)
  else if e = 110 then some (Char.ofNat 10)
  else if e = 114 then some (Char.ofNat 13)
  else if e = 116 then some (Char.ofNat 9)
  else none

/-- The low half of a surrogate pair written as a second escape, if one follows. -/
def lowSurrogate : Bytes → Option (Nat × Bytes)
  | e :: u :: a :: b :: c :: d :: rest =>
    if e = 92 ∧ u = 117 then
      match hex4 a b c d with
      | some m => if 56320 ≤ m ∧ m < 57344 then some (m, rest) else none
      | none => none
    else none
  | _ => none

/-- Read what follows a backslash: a one-letter escape, or `u` and four
hexadecimal digits; a surrogate pair is one character, a lone surrogate the
replacement character. -/
def readEscape : Bytes → Option (Char × Bytes)
  | [] => none
  | e :: rest =>
    if e = 117 then
      match rest with
      | a :: b :: c :: d :: rest2 =>
        match hex4 a b c d with
        | none => none
        | some n =>
          if 55296 ≤ n ∧ n < 56320 then
            match lowSurrogate rest2 with
            | some (m, rest3) =>
              some (Char.ofNat (65536 + (n - 55296) * 1024 + (m - 56320)), rest3)
            | none => some (replacement, rest2)
          else if 56320 ≤ n ∧ n < 57344 then some (replacement, rest2)
          else some (Char.ofNat n, rest2)
      | _ => none
    else (unescape e).map fun ch => (ch, rest)

/-- Read one character inside a JSON string; a raw control character is an
error. -/
def readRune : Bytes → Option (Char × Bytes)
  | [] => none
  | b :: rest =>
    if b = 92 then readEscape rest
    else if b < 32 then none
    else if b < 128 then some (Char.ofNat b, rest)
    else some (readUtf8 b rest)

/-- Read the characters of a JSON string up to its closing double quote, which
is consumed; `fuel` bounds the number of characters. -/
def decodeRunes : Nat → Bytes → Option (List Char × Bytes)
  | 0, _ => none
  | fuel + 1, bs =>
    match bs with
    | [] => none
    | b :: rest =>
      if b = 34 then some ([], rest)
      else
        match readRune (b :: rest) with
        | none => none
        | some (c, rest2) => (decodeRunes fuel rest2).map fun p => (c :: p.1, p.2)

/-- Decoding into a `MyType` an object with the string members `foo` and `bar`,
in that order and without white space, which is the form `json.Marshal`
writes. -/
def jsonUnmarshal (bs : Bytes) : Option MyType :=
  (expect (asciiBytes "\x7b\"foo\":\"") bs).bind fun r1 =>
  (decodeRunes r1.length r1).bind fun foo =>
  (expect (asciiBytes ",\"bar\":\"") foo.2).bind fun r2 =>
  (decodeRunes r2.length r2).bind fun bar =>
  if bar.2 = asciiBytes "\x7d" then some ⟨String.mk foo.1, String.mk bar.1⟩ else none

/-- Decoding into a `Payload`: channels are never written, so every decoded
value is a `MyType`. -/
def jsonUnmarshalPayload (bs : Bytes) : Option Payload :=
  (jsonUnmarshal bs).map Payload.value

/-- A header map with the single entry `Errors: boom`. -/
def flaggedHeader : Header := fun k => if k = "Errors" then some ["boom"] else none

/-- The header map two injections are expected to deliver: `h` with `v1`
appended under the canonical form of `k1` and `v2` appended under that of `k2`,
every other entry and every earlier value kept. -/
def Header.appendedBoth (canon : String → String) (h : Header) (k1 v1 k2 v2 : String) :
    Header :=
  fun k =>
    if k = canon k1 then some ((h k).getD [] ++ [v1])
    else if k = canon k2 then some ((h k).getD [] ++ [v2])
    else h k

/-- The error the chain status, then header, then body is expected to surface
for a response: the first of the three checks that fails, in that order. -/
def firstFailure (std : Stdlib) (c : Int) (resp : Response) : Option Error :=
  if resp.StatusCode ≠ c then some (invalidCodeError c resp.StatusCode)
  else if Header.Get std.CanonicalHeaderKey resp.Header "ERRORS" ≠ "" then
    some (headerError std.Quote (Header.Get std.CanonicalHeaderKey resp.Header "ERRORS"))
  else if resp.Body = none then some ErrMissingBody
  else none

/-- A decoder that reports success and overwrites the destination, so that an
untouched destination shows that it did not run. -/
def overwriting (v : MyType) : Bytes → MyType → Decoded MyType :=
  fun b _ => { err := none, dst := v, rest := b }

/-- The value of a decimal digit character. -/
def digitValue (c : Char) : Nat := c.toNat - 48

/-- Reading a list of decimal digits, most significant first, onto `acc`. -/
def readDigits (acc : Nat) (ds : List Char) : Nat :=
  ds.foldl (fun a c => 10 * a + digitValue c) acc

/-! ## Theorems -/

/-- One invocation of an instrumented client: the reply and the effect of the
client itself, and the request appended to the record. -/
theorem Client.traced_Do {σ : Type} (c : Client σ) (r : Request)
    (log : List Request) (s : σ) :
    c.traced.Do r (log, s) = ((c.Do r s).1, (log ++ [r], (c.Do r s).2)) := rfl

/-- C1: `ClientFunc(f).Do(req)` is `f(req)`: same reply, same effect on the
world, both as a method and through the `Client` interface; and a function that
records its invocations is invoked exactly once, with `req`. -/
theorem clientFunc_do_eq {σ : Type} (f : ClientFunc σ) (req : Request) :
    ClientFunc.Do f req = f req ∧
    f.toClient.Do req = f req ∧
    ∀ (log : List Request) (s : σ),
      ClientFunc.Do (Client.traced ⟨f⟩).Do req (log, s)
        = ((f req s).1, (log ++ [req], (f req s).2)) := by
  refine ⟨rfl, rfl, ?_⟩
  intro log s
  rfl

/-- C2: when building the request fails with `e`, `DoRequestWithContext`
returns `nil, e` and leaves the world and the record of invocations untouched;
when it yields `req`, the client is invoked exactly once, on `req`, and its
response and error (or its panic) and its effect on the world are passed on
unchanged. -/
theorem doRequestWithContext_spec {σ : Type} (std : Stdlib) (ctx : Option Context)
    (client : Client σ) (method url : String) (body : Option Bytes)
    (log : List Request) (s : σ) :
    (∀ e, std.NewRequestWithContext ctx method url body = .error e →
      DoRequestWithContext std ctx client method url body s = (.ok (none, some e), s) ∧
      DoRequestWithContext std ctx client.traced method url body (log, s)
        = (.ok (none, some e), (log, s))) ∧
    (∀ req, std.NewRequestWithContext ctx method url body = .ok req →
      DoRequestWithContext std ctx client method url body s
        = (Except.map (fun out => (out.resp, out.err)) (client.Do req s).1,
            (client.Do req s).2) ∧
      DoRequestWithContext std ctx client.traced method url body (log, s)
        = (Except.map (fun out => (out.resp, out.err)) (client.Do req s).1,
            (log ++ [req], (client.Do req s).2))) := by
  constructor
  · intro e h
    simp [DoRequestWithContext, h]
  · intro req h
    simp only [DoRequestWithContext, h, Client.traced_Do]
    rcases hd : client.Do req s with ⟨r, s'⟩
    cases r <;> simp [Except.map]

/-- C3: `DoRequest` is `DoRequestWithContext` with the background context,
which has no deadline and is never cancelled: same outcome, same effect on the
world, same request delivered to the client. -/
theorem doRequest_eq_background {σ : Type} (std : Stdlib) (client : Client σ)
    (method url : String) (body : Option Bytes) :
    DoRequest std client method url body
      = DoRequestWithContext std (some Context.Background) client method url body ∧
    DoRequest std client.traced method url body
      = DoRequestWithContext std (some Context.Background) client.traced method url body ∧
    Context.Background.hasDeadline = false ∧ Context.Background.canCancel = false :=
  ⟨rfl, rfl, rfl, rfl⟩

/-- Witness of C2: a malformed address never reaches the client, a well-formed
one reaches it exactly once. -/
theorem doRequestWithContext_spec_witness :
    (DoRequestWithContext Stdlib.sample (some Context.Background)
        (failing (Error.foreign "down")).traced "GET" ":" none ([], 0)
      = (.ok (none, some (Error.foreign "parse: missing protocol scheme")), ([], 0))) ∧
    (DoRequestWithContext Stdlib.sample (some Context.Background)
        (failing (Error.foreign "down")).traced "GET" "http://example.com" none ([], 0)
      = (.ok (none, some (Error.foreign "down")),
          ([{ Method := "GET", URL := "http://example.com", Header := some Header.empty,
              Body := none, ctx := Context.Background }], 1))) :=
  ⟨((doRequestWithContext_spec Stdlib.sample (some Context.Background)
      (failing (Error.foreign "down")) "GET" ":" none [] 0).1 _ rfl).2,
   ((doRequestWithContext_spec Stdlib.sample (some Context.Background)
      (failing (Error.foreign "down")) "GET" "http://example.com" none [] 0).2 _ rfl).2⟩

/-! ### The decimal rendering of the codes in the status error -/

/-- A digit character reads back as its digit. -/
theorem digitValue_digitChar (m : Nat) (h : m < 10) : digitValue (Nat.digitChar m) = m := by
  interval_cases m <;> rfl

/-- A decimal digit is neither a comma nor a minus sign. -/
theorem digitChar_ne_sep (m : Nat) (h : m < 10) :
    Nat.digitChar m ≠ ',' ∧ Nat.digitChar m ≠ '-' := by
  interval_cases m <;> exact ⟨by decide, by decide⟩

/-- Reading back the digits written for `n` in front of `ds`. -/
theorem readDigits_toDigitsCore (fuel : Nat) :
    ∀ (n : Nat) (ds : List Char), n < fuel →
      readDigits 0 (Nat.toDigitsCore 10 fuel n ds) = readDigits n ds := by
  induction fuel with
  | zero => intro n ds h; omega
  | succ fuel ih =>
    intro n ds h
    simp only [Nat.toDigitsCore]
    by_cases h0 : n / 10 = 0
    · simp only [h0, if_true]
      have hlt : n < 10 := by omega
      have hv := digitValue_digitChar n hlt
      simp only [readDigits, List.foldl_cons, Nat.mod_eq_of_lt hlt, hv, Nat.mul_zero,
        Nat.zero_add]
    · simp only [h0, if_false]
      rw [ih (n / 10) _ (by omega)]
      simp only [readDigits, List.foldl_cons,
        digitValue_digitChar (n % 10) (Nat.mod_lt _ (by norm_num))]
      congr 1
      omega

/-- Writing digits introduces neither a comma nor a minus sign. -/
theorem toDigitsCore_no_sep (fuel : Nat) :
    ∀ (n : Nat) (ds : List Char), (∀ c ∈ ds, c ≠ ',' ∧ c ≠ '-') →
      ∀ c ∈ Nat.toDigitsCore 10 fuel n ds, c ≠ ',' ∧ c ≠ '-' := by
  induction fuel with
  | zero => intro n ds h c hc; exact h c (by simpa [Nat.toDigitsCore] using hc)
  | succ fuel ih =>
    intro n ds h
    have hd := digitChar_ne_sep (n % 10) (Nat.mod_lt _ (by norm_num))
    have hcons : ∀ c ∈ Nat.digitChar (n % 10) :: ds, c ≠ ',' ∧ c ≠ '-' := by
      intro c hc
      rcases List.mem_cons.1 hc with rfl | hc
      · exact hd
      · exact h c hc
    simp only [Nat.toDigitsCore]
    by_cases h0 : n / 10 = 0
    · simpa only [h0, if_true] using hcons
    · simpa only [h0, if_false] using ih (n / 10) _ hcons

/-- Distinct naturals have distinct decimal renderings. -/
theorem natRepr_injective (a b : Nat) (h : Nat.repr a = Nat.repr b) : a = b := by
  have hd : Nat.toDigits 10 a = Nat.toDigits 10 b := by
    have := congrArg String.data h
    simpa [Nat.repr, List.asString] using this
  have ha := readDigits_toDigitsCore (a + 1) a [] (by omega)
  have hb := readDigits_toDigitsCore (b + 1) b [] (by omega)
  simp only [Nat.toDigits] at hd
  rw [hd, hb] at ha
  simpa [readDigits] using ha.symm

/-- The decimal rendering of a natural has no comma and no minus sign. -/
theorem natRepr_no_sep (a : Nat) : ∀ c ∈ (Nat.repr a).data, c ≠ ',' ∧ c ≠ '-' := by
  intro c hc
  have : c ∈ Nat.toDigits 10 a := by simpa [Nat.repr, List.asString] using hc
  exact toDigitsCore_no_sep (a + 1) a [] (by simp) c this

/-- The rendering of an integer by the verb d has no comma. -/
theorem intToString_no_comma (a : Int) : ',' ∉ (toString a).data := by
  cases a with
  | ofNat m =>
    intro hc
    exact (natRepr_no_sep m _ hc).1 rfl
  | negSucc m =>
    intro hc
    have : ',' ∈ ("-" ++ Nat.repr (m + 1)).data := hc
    rw [String.data_append] at this
    rcases List.mem_append.1 this with h | h
    · simp at h
    · exact (natRepr_no_sep _ _ h).1 rfl

/-- Distinct integers have distinct renderings. -/
theorem intToString_injective (a b : Int) (h : toString a = toString b) : a = b := by
  cases a with
  | ofNat m =>
    cases b with
    | ofNat n =>
      have : Nat.repr m = Nat.repr n := h
      rw [natRepr_injective m n this]
    | negSucc n =>
      exfalso
      have h1 : Nat.repr m = "-" ++ Nat.repr (n + 1) := h
      have : '-' ∈ (Nat.repr m).data := by rw [h1, String.data_append]; simp
      exact (natRepr_no_sep m _ this).2 rfl
  | negSucc m =>
    cases b with
    | ofNat n =>
      exfalso
      have h1 : "-" ++ Nat.repr (m + 1) = Nat.repr n := h
      have : '-' ∈ (Nat.repr n).data := by rw [← h1, String.data_append]; simp
      exact (natRepr_no_sep n _ this).2 rfl
    | negSucc n =>
      have h1 : "-" ++ Nat.repr (m + 1) = "-" ++ Nat.repr (n + 1) := h
      have h2 := congrArg String.data h1
      simp only [String.data_append, List.append_cancel_left_eq] at h2
      have h3 : Nat.repr (m + 1) = Nat.repr (n + 1) := String.ext h2
      have := natRepr_injective _ _ h3
      have hmn : m = n := by omega
      rw [hmn]

/-- Two lists cut at a separator that occurs in neither left part agree part by part. -/
theorem split_at_sep (c : Char) :
    ∀ (l1 l2 r1 r2 : List Char), c ∉ l1 → c ∉ l2 → l1 ++ c :: r1 = l2 ++ c :: r2 →
      l1 = l2 ∧ r1 = r2 := by
  intro l1
  induction l1 with
  | nil =>
    intro l2 r1 r2 _ h2 h
    cases l2 with
    | nil => simpa using h
    | cons x xs =>
      simp only [List.nil_append, List.cons_append, List.cons.injEq] at h
      exact absurd (h.1 ▸ List.mem_cons_self _ _) h2
  | cons y ys ih =>
    intro l2 r1 r2 h1 h2 h
    cases l2 with
    | nil =>
      simp only [List.nil_append, List.cons_append, List.cons.injEq] at h
      exact absurd (h.1 ▸ List.mem_cons_self _ _) h1
    | cons x xs =>
      simp only [List.cons_append, List.cons.injEq] at h
      have := ih xs r1 r2 (fun hm => h1 (List.mem_cons_of_mem _ hm))
        (fun hm => h2 (List.mem_cons_of_mem _ hm)) h.2
      exact ⟨by rw [h.1, this.1], this.2⟩

/-- The message of the status error determines the expected and the actual code. -/
theorem invalidCodeError_identifies (c g c' g' : Int)
    (h : (invalidCodeError c g).errorText = (invalidCodeError c' g').errorText) :
    c = c' ∧ g = g' := by
  have hd := congrArg String.data h
  simp only [invalidCodeError, Error.errorText, String.data_append, List.append_assoc,
    List.append_cancel_left_eq] at hd
  simp only [List.cons_append] at hd
  have hs := split_at_sep ',' _ _ _ _ (intToString_no_comma c) (intToString_no_comma c') hd
  have hc : c = c' := intToString_injective c c' (String.ext hs.1)
  have hg : g = g' :=
    intToString_injective g g' (String.ext (by simpa using hs.2))
  exact ⟨hc, hg⟩

/-- C4: when the inner client returns a non-nil response `resp` and a nil
error, `DecorateCheckStatus inner c` returns that same `resp`; its error is nil
exactly when `resp.StatusCode = c`; otherwise it is the error that wraps
`ErrInvalidCode` (so `errors.Is` finds the sentinel) and whose message names
the expected code `c` and the actual code `resp.StatusCode`, and no other pair
of codes gives that message. -/
theorem checkStatus_spec {σ : Type} (inner : Client σ) (c : Int) (r r' : Request)
    (resp : Response) (s s' : σ)
    (h : inner.Do r s = (.ok { req := r', resp := some resp, err := none }, s')) :
    ∃ err : Option Error,
      (DecorateCheckStatus inner c).Do r s
        = (.ok { req := r', resp := some resp, err := err }, s') ∧
      (err = none ↔ resp.StatusCode = c) ∧
      (resp.StatusCode ≠ c →
        ∃ e, err = some e ∧ e.Is ErrInvalidCode = true ∧ e.Unwrap = some ErrInvalidCode ∧
          e.errorText = "invalid status code: expected " ++ toString c ++ ", got "
            ++ toString resp.StatusCode ∧
          ∀ c' g' : Int, (invalidCodeError c' g').errorText = e.errorText →
            c' = c ∧ g' = resp.StatusCode) := by
  by_cases hc : resp.StatusCode = c
  · refine ⟨none, ?_, ?_, ?_⟩
    · simp [ClientFunc.Do, DecorateCheckStatus, h, hc]
    · simp [hc]
    · intro hne
      exact absurd hc hne
  · refine ⟨some (invalidCodeError c resp.StatusCode), ?_, ?_, ?_⟩
    · simp [ClientFunc.Do, DecorateCheckStatus, h, hc]
    · simp [hc]
    · intro _
      refine ⟨_, rfl, ?_, rfl, rfl, ?_⟩
      · simp [invalidCodeError, Error.Is, ErrInvalidCode]
      · intro c' g' hm
        exact invalidCodeError_identifies c' g' c resp.StatusCode hm

/-- Witness of C4: expected 200, got 404. -/
theorem checkStatus_spec_witness :
    (invalidCodeError 200 404).errorText = "invalid status code: expected 200, got 404" ∧
    ∃ err : Option Error,
      (DecorateCheckStatus (answering ⟨404, none, none⟩) 200).Do plainRequest 0
        = (.ok { req := plainRequest, resp := some ⟨404, none, none⟩, err := err }, 1) ∧
      (err = none ↔ (404 : Int) = 200) ∧
      ((404 : Int) ≠ 200 →
        ∃ e, err = some e ∧ e.Is ErrInvalidCode = true ∧ e.Unwrap = some ErrInvalidCode ∧
          e.errorText = "invalid status code: expected " ++ toString (200 : Int) ++ ", got "
            ++ toString (404 : Int) ∧
          ∀ c' g' : Int, (invalidCodeError c' g').errorText = e.errorText →
            c' = 200 ∧ g' = 404) :=
  ⟨by decide,
   checkStatus_spec (answering ⟨404, none, none⟩) 200 plainRequest plainRequest
    ⟨404, none, none⟩ 0 1 rfl⟩

/-- C5: when the inner client returns a non-nil error `e` (with any response,
nil included), each of `DecorateCheckStatus`, `DecorateCheckBody`,
`DecorateCheckHeaderError` and `DecorateDecodeJSON` returns exactly the inner
reply, with the inner effect on the world and nothing else: no check is made,
no error is produced, and the decoding destination `d` is left as it was. -/
theorem decorators_short_circuit {σ δ : Type} (std : Stdlib) (Decode : Bytes → δ → Decoded δ)
    (inner : Client σ) (c : Int) (r r' : Request) (resp : Option Response) (e : Error)
    (s s' : σ) (d : δ)
    (h : inner.Do r s = (.ok { req := r', resp := resp, err := some e }, s')) :
    (DecorateCheckStatus inner c).Do r s
      = (.ok { req := r', resp := resp, err := some e }, s') ∧
    (DecorateCheckBody inner).Do r s
      = (.ok { req := r', resp := resp, err := some e }, s') ∧
    (DecorateCheckHeaderError std inner).Do r s
      = (.ok { req := r', resp := resp, err := some e }, s') ∧
    (DecorateDecodeJSON Decode inner).Do r (s, d)
      = (.ok { req := r', resp := resp, err := some e }, (s', d)) := by
  refine ⟨?_, ?_, ?_, ?_⟩
  · simp [ClientFunc.Do, DecorateCheckStatus, h]
  · simp [ClientFunc.Do, DecorateCheckBody, h]
  · simp [ClientFunc.Do, DecorateCheckHeaderError, h]
  · simp [ClientFunc.Do, DecorateDecodeJSON, h]

/-- Witness of C5: a transport failure with a nil response goes through the
four decorators unchanged, and the destination keeps its value. -/
theorem decorators_short_circuit_witness :
    (DecorateCheckStatus (failing (Error.foreign "down")) 200).Do plainRequest 0
      = (.ok { req := plainRequest, resp := none, err := some (Error.foreign "down") }, 1) ∧
    (DecorateCheckBody (failing (Error.foreign "down"))).Do plainRequest 0
      = (.ok { req := plainRequest, resp := none, err := some (Error.foreign "down") }, 1) ∧
    (DecorateCheckHeaderError Stdlib.sample (failing (Error.foreign "down"))).Do plainRequest 0
      = (.ok { req := plainRequest, resp := none, err := some (Error.foreign "down") }, 1) ∧
    (DecorateDecodeJSON (overwriting ⟨"x", "y"⟩) (failing (Error.foreign "down"))).Do
        plainRequest (0, ⟨"", ""⟩)
      = (.ok { req := plainRequest, resp := none, err := some (Error.foreign "down") },
          (1, ⟨"", ""⟩)) :=
  decorators_short_circuit Stdlib.sample (overwriting ⟨"x", "y"⟩)
    (failing (Error.foreign "down")) 200 plainRequest plainRequest none
    (Error.foreign "down") 0 1 ⟨"", ""⟩ rfl

/-! ### Decoding undoes marshalling -/

/-- Expected bytes are read off the front of a stream that starts with them. -/
theorem expect_append (p x : Bytes) : expect p (p ++ x) = some x := by
  induction p with
  | nil => cases x <;> rfl
  | cons a p ih => simp [expect, ih]

/-- The code point of a character is a Unicode scalar value. -/
theorem char_valid_toNat (c : Char) :
    c.toNat < 55296 ∨ (57343 < c.toNat ∧ c.toNat < 1114112) := c.valid

/-- A hexadecimal digit reads back as its value. -/
theorem hexValue_hexDigit (k : Nat) (h : k < 16) : hexValue (hexDigit k) = some k := by
  interval_cases k <;> rfl

/-- The UTF-8 bytes of a non-ASCII scalar value read back as that value. -/
theorem readRune_utf8 (n : Nat) (rest : Bytes) (h128 : 128 ≤ n)
    (hv : n < 55296 ∨ (57343 < n ∧ n < 1114112)) :
    readRune (utf8Bytes n ++ rest) = some (Char.ofNat n, rest) := by
  unfold utf8Bytes
  have h1 : ¬ n < 128 := by omega
  rw [if_neg h1]
  by_cases h2 : n < 2048
  · rw [if_pos h2]
    have e : (192 + n / 64 - 192) * 64 + (128 + n % 64 - 128) = n := by omega
    simp only [List.cons_append, List.nil_append, readRune, readUtf8, isCont]
    rw [if_neg (by omega), if_neg (by omega), if_neg (by omega), if_pos (by omega)]
    simp only [e]
    rw [if_pos (by simp; omega)]
  · rw [if_neg h2]
    by_cases h3 : n < 65536
    · rw [if_pos h3]
      have e : (224 + n / 4096 - 224) * 4096 + (128 + n / 64 % 64 - 128) * 64
          + (128 + n % 64 - 128) = n := by omega
      simp only [List.cons_append, List.nil_append, readRune, readUtf8, isCont]
      rw [if_neg (by omega), if_neg (by omega), if_neg (by omega), if_neg (by omega),
        if_pos (by omega)]
      simp only [e]
      rw [if_pos (by simp; omega)]
    · rw [if_neg h3]
      have e : (240 + n / 262144 - 240) * 262144 + (128 + n / 4096 % 64 - 128) * 4096
          + (128 + n / 64 % 64 - 128) * 64 + (128 + n % 64 - 128) = n := by omega
      simp only [List.cons_append, List.nil_append, readRune, readUtf8, isCont]
      rw [if_neg (by omega), if_neg (by omega), if_neg (by omega), if_neg (by omega),
        if_neg (by omega), if_pos (by omega)]
      simp only [e]
      rw [if_pos (by simp; omega)]

/-- A character is determined by its code point. -/
theorem char_eq_of_toNat (c : Char) (n : Nat) (h : c.toNat = n) : Char.ofNat n = c := by
  rw [← h]
  exact Char.ofNat_toNat c

/-- The bytes written for a character read back as that character. -/
theorem readRune_encodeRune (c : Char) (rest : Bytes) :
    readRune (encodeRune c ++ rest) = some (c, rest) := by
  have hv := char_valid_toNat c
  unfold encodeRune
  split_ifs with h1 h2 h3 h4 h5 h6 h7
  · simp [readRune, readEscape, unescape]
    exact char_eq_of_toNat c 34 h1
  · simp [readRune, readEscape, unescape]
    exact char_eq_of_toNat c 92 h2
  · simp [readRune, readEscape, unescape]
    exact char_eq_of_toNat c 10 h3
  · simp [readRune, readEscape, unescape]
    exact char_eq_of_toNat c 13 h4
  · simp [readRune, readEscape, unescape]
    exact char_eq_of_toNat c 9 h5
  · have hlt : c.toNat < 256 := by omega
    have hx : hex4 48 48 (hexDigit (c.toNat / 16)) (hexDigit (c.toNat % 16))
        = some c.toNat := by
      have e0 : hexValue 48 = some 0 := rfl
      simp only [hex4, e0, hexValue_hexDigit (c.toNat / 16) (by omega),
        hexValue_hexDigit (c.toNat % 16) (by omega), Option.some_bind, Option.map_some']
      congr 1
      omega
    simp only [List.cons_append, List.nil_append, readRune, readEscape, hx, if_true]
    rw [if_neg (by omega), if_neg (by omega), Char.ofNat_toNat]
  · have hx : hex4 50 48 50 (hexDigit (c.toNat % 16)) = some c.toNat := by
      have e0 : hexValue 48 = some 0 := rfl
      have e2 : hexValue 50 = some 2 := rfl
      simp only [hex4, e0, e2, hexValue_hexDigit (c.toNat % 16) (by omega),
        Option.some_bind, Option.map_some']
      congr 1
      omega
    simp only [List.cons_append, List.nil_append, readRune, readEscape, hx, if_true]
    rw [if_neg (by omega), if_neg (by omega), Char.ofNat_toNat]
  · by_cases h128 : c.toNat < 128
    · have hu : utf8Bytes c.toNat = [c.toNat] := by simp [utf8Bytes, h128]
      rw [hu]
      simp only [List.cons_append, List.nil_append, readRune]
      rw [if_neg h2, if_neg (by omega), if_pos h128, Char.ofNat_toNat]
    · rw [readRune_utf8 c.toNat rest (by omega) hv, Char.ofNat_toNat]

/-- The bytes written for a character are not empty and do not start with a
double quote. -/
theorem encodeRune_head (c : Char) : ∃ b tl, encodeRune c = b :: tl ∧ b ≠ 34 := by
  unfold encodeRune
  split_ifs with h1 h2 h3 h4 h5 h6 h7
  · exact ⟨92, _, rfl, by decide⟩
  · exact ⟨92, _, rfl, by decide⟩
  · exact ⟨92, _, rfl, by decide⟩
  · exact ⟨92, _, rfl, by decide⟩
  · exact ⟨92, _, rfl, by decide⟩
  · exact ⟨92, _, rfl, by decide⟩
  · exact ⟨92, _, rfl, by decide⟩
  · unfold utf8Bytes
    split_ifs
    · exact ⟨_, _, rfl, h1⟩
    · exact ⟨_, _, rfl, by omega⟩
    · exact ⟨_, _, rfl, by omega⟩
    · exact ⟨_, _, rfl, by omega⟩

/-- The bytes written for a string, closed by a double quote, read back as the
string. -/
theorem decodeRunes_encodeRunes (cs : List Char) :
    ∀ (fuel : Nat) (rest : Bytes), cs.length < fuel →
      decodeRunes fuel (encodeRunes cs ++ 34 :: rest) = some (cs, rest) := by
  induction cs with
  | nil =>
    intro fuel rest h
    cases fuel with
    | zero => omega
    | succ fuel => simp [encodeRunes, decodeRunes]
  | cons c cs ih =>
    intro fuel rest h
    cases fuel with
    | zero => omega
    | succ fuel =>
      obtain ⟨b, tl, hb, hne⟩ := encodeRune_head c
      have hr := readRune_encodeRune c (encodeRunes cs ++ 34 :: rest)
      have hl : cs.length < fuel := by simpa using h
      simp only [encodeRunes, List.append_assoc]
      rw [hb] at hr ⊢
      simp only [List.cons_append] at hr ⊢
      simp only [decodeRunes, if_neg hne, hr, ih fuel rest hl, Option.map_some']

/-- A written string has more bytes than the string has characters. -/
theorem length_lt_encodeRunes (cs : List Char) (rest : Bytes) :
    cs.length < (encodeRunes cs ++ 34 :: rest).length := by
  induction cs with
  | nil => simp [encodeRunes]
  | cons c cs ih =>
    obtain ⟨b, tl, hb, _⟩ := encodeRune_head c
    simp only [encodeRunes, hb, List.append_assoc, List.cons_append, List.length_cons,
      List.length_append] at ih ⊢
    omega

/-- Every `MyType` is decoded back from the bytes written for it. -/
theorem jsonUnmarshal_marshalMyType (m : MyType) : jsonUnmarshal (marshalMyType m) = some m := by
  have hshape : marshalMyType m
      = asciiBytes "\x7b\"foo\":\"" ++ (encodeRunes m.Foo.data ++ 34 ::
          (asciiBytes ",\"bar\":\"" ++ (encodeRunes m.Bar.data ++ 34 :: asciiBytes "\x7d"))) := by
    have e1 : asciiBytes "\x7b\"foo\":\"" = asciiBytes "\x7b\"foo\":" ++ [34] := by decide
    have e2 : asciiBytes ",\"bar\":\"" = asciiBytes ",\"bar\":" ++ [34] := by decide
    simp only [marshalMyType, encodeString, e1, e2, List.append_assoc, List.cons_append,
      List.nil_append]
  unfold jsonUnmarshal
  rw [hshape, expect_append]
  simp only [Option.some_bind]
  rw [decodeRunes_encodeRunes _ _ _ (length_lt_encodeRunes _ _)]
  simp only [Option.some_bind]
  rw [expect_append]
  simp only [Option.some_bind]
  rw [decodeRunes_encodeRunes _ _ _ (length_lt_encodeRunes _ _)]
  simp

/-- C6: `DecorateWithJSONBody inner v` invokes `inner` exactly when marshalling
`v` succeeds.  On failure with `e` it returns a nil response and `e`, the
request is as it was, the world and the record of invocations are untouched.
On success with bytes `b` it is one invocation of `inner`, on the request with
body `b`, whose reply is returned; for a decoder that undoes the marshaller on
every value up to `equiv`, the body `inner` received decodes to a value
equivalent to `v`.  With the JSON encoding of `MyType`, every value is
marshalled and the body `inner` received decodes back to that very value. -/
theorem withJSONBody_spec {σ β : Type} (Marshal : β → Except Error Bytes)
    (inner : Client σ) (v : β) (r : Request) (log : List Request) (s : σ) :
    (∀ e, Marshal v = .error e →
      (DecorateWithJSONBody Marshal inner.traced v).Do r (log, s)
        = (.ok { req := r, resp := none, err := some e }, (log, s))) ∧
    (∀ b, Marshal v = .ok b →
      (DecorateWithJSONBody Marshal inner.traced v).Do r (log, s)
        = ((inner.Do { r with Body := some b } s).1,
            (log ++ [{ r with Body := some b }], (inner.Do { r with Body := some b } s).2)) ∧
      ∀ (Unmarshal : Bytes → Option β) (equiv : β → β → Prop),
        (∀ x bs, Marshal x = .ok bs → ∃ y, Unmarshal bs = some y ∧ equiv x y) →
        ∃ req body,
          ((DecorateWithJSONBody Marshal inner.traced v).Do r (log, s)).2.1 = log ++ [req] ∧
          req.Body = some body ∧ ∃ y, Unmarshal body = some y ∧ equiv v y) ∧
    (((DecorateWithJSONBody Marshal inner.traced v).Do r (log, s)).2.1 ≠ log
      ↔ ∃ b, Marshal v = .ok b) ∧
    (∀ m : MyType, ∃ req body,
      ((DecorateWithJSONBody jsonMarshal inner.traced (Payload.value m)).Do r (log, s)).2.1
        = log ++ [req] ∧
      req.Method = r.Method ∧ req.URL = r.URL ∧ req.ctx = r.ctx ∧
      req.Body = some body ∧ body = marshalMyType m ∧ jsonUnmarshal body = some m) := by
  refine ⟨?_, ?_, ?_, ?_⟩
  · intro e h
    simp [ClientFunc.Do, DecorateWithJSONBody, h]
  · intro b h
    refine ⟨?_, ?_⟩
    · simp [ClientFunc.Do, DecorateWithJSONBody, h, Client.traced_Do]
    · intro Unmarshal equiv hrt
      refine ⟨{ r with Body := some b }, b, ?_, rfl, hrt v b h⟩
      simp [ClientFunc.Do, DecorateWithJSONBody, h, Client.traced_Do]
  · cases h : Marshal v with
    | error e => simp [ClientFunc.Do, DecorateWithJSONBody, h]
    | ok b => simp [ClientFunc.Do, DecorateWithJSONBody, h, Client.traced_Do]
  · intro m
    refine ⟨{ r with Body := some (marshalMyType m) }, marshalMyType m, ?_, rfl, rfl, rfl, rfl,
      rfl, jsonUnmarshal_marshalMyType m⟩
    simp [ClientFunc.Do, DecorateWithJSONBody, jsonMarshal, Client.traced_Do]

/-- Witness of C6: a channel cannot be marshalled and the transport is not
invoked; a `MyType` with `Foo` set to `bar` is marshalled, the transport is
invoked once with the JSON object as body, and that body decodes back to the
same value, also when the strings need escaping. -/
theorem withJSONBody_spec_witness :
    ((DecorateWithJSONBody jsonMarshal (failing (Error.foreign "down")).traced
        Payload.channel).Do plainRequest ([], 0)
      = (.ok { req := plainRequest, resp := none,
               err := some (Error.foreign "json: unsupported type: chan int") }, ([], 0))) ∧
    ((DecorateWithJSONBody jsonMarshal (failing (Error.foreign "down")).traced
        (Payload.value ⟨"bar", ""⟩)).Do plainRequest ([], 0)
      = (.ok { req := { plainRequest with Body := some (marshalMyType ⟨"bar", ""⟩) },
               resp := none, err := some (Error.foreign "down") },
          ([{ plainRequest with Body := some (marshalMyType ⟨"bar", ""⟩) }], 1))) ∧
    marshalMyType ⟨"bar", ""⟩ = asciiBytes "\x7b\"foo\":\"bar\",\"bar\":\"\"\x7d" ∧
    (∃ req body,
      ((DecorateWithJSONBody jsonMarshal (failing (Error.foreign "down")).traced
          (Payload.value ⟨"bar", ""⟩)).Do plainRequest ([], 0)).2.1 = [] ++ [req] ∧
      req.Body = some body ∧
      ∃ y, jsonUnmarshalPayload body = some y ∧ Payload.value ⟨"bar", ""⟩ = y) ∧
    (∃ req body,
      ((DecorateWithJSONBody jsonMarshal (failing (Error.foreign "down")).traced
          (Payload.value ⟨"a\"b\\c", "<é>\n"⟩)).Do plainRequest ([], 0)).2.1 = [] ++ [req] ∧
      req.Method = plainRequest.Method ∧ req.URL = plainRequest.URL ∧
      req.ctx = plainRequest.ctx ∧
      req.Body = some body ∧ body = marshalMyType ⟨"a\"b\\c", "<é>\n"⟩ ∧
      jsonUnmarshal body = some ⟨"a\"b\\c", "<é>\n"⟩) ∧
    marshalMyType ⟨"a\"b\\c", "<é>\n"⟩
      = asciiBytes "\x7b\"foo\":\"a\\\"b\\\\c\",\"bar\":\"\\u003c"
        ++ [195, 169] ++ asciiBytes "\\u003e\\n\"\x7d" :=
  ⟨(withJSONBody_spec jsonMarshal (failing (Error.foreign "down")) Payload.channel
      plainRequest [] 0).1 _ rfl,
   ((withJSONBody_spec jsonMarshal (failing (Error.foreign "down"))
      (Payload.value ⟨"bar", ""⟩) plainRequest [] 0).2.1 _ rfl).1,
   by decide,
   ((withJSONBody_spec jsonMarshal (failing (Error.foreign "down"))
      (Payload.value ⟨"bar", ""⟩) plainRequest [] 0).2.1 _ rfl).2 jsonUnmarshalPayload Eq
      (fun x bs hbs => by
        cases x with
        | value m =>
          have hb : marshalMyType m = bs := Except.ok.inj hbs
          subst hb
          exact ⟨Payload.value m, by simp [jsonUnmarshalPayload, jsonUnmarshal_marshalMyType],
            rfl⟩
        | channel => exact absurd hbs (by simp [jsonMarshal])),
   (withJSONBody_spec jsonMarshal (failing (Error.foreign "down"))
      (Payload.value ⟨"bar", ""⟩) plainRequest [] 0).2.2.2 ⟨"a\"b\\c", "<é>\n"⟩,
   by decide⟩

/-- C7, as stated, fails: for a response whose `ERRORS` header is `boom`,
`DecorateCheckHeaderError` returns an error allocated on the spot, which is
none of the declared sentinels and wraps none of them (nor any other
package-level error). -/
theorem headerError_not_sentinel :
    ((DecorateCheckHeaderError Stdlib.sample
        (answering ⟨200, some flaggedHeader, some []⟩)).Do plainRequest 0
      = (.ok { req := plainRequest, resp := some ⟨200, some flaggedHeader, some []⟩,
               err := some (Error.errorString "received errors in header: \"boom\"") }, 1)) ∧
    (Error.errorString "received errors in header: \"boom\"").Is ErrInvalidCode = false ∧
    (Error.errorString "received errors in header: \"boom\"").Is ErrMissingBody = false ∧
    (Error.errorString "received errors in header: \"boom\"").Unwrap = none := by
  refine ⟨?_, by decide, by decide, rfl⟩
  rfl

/-- C7, amended: on a successful inner reply, the error of
`DecorateCheckStatus` wraps the sentinel `ErrInvalidCode` and the error of
`DecorateCheckBody` is the sentinel `ErrMissingBody`, so both are matched by
`errors.Is`; the error of `DecorateCheckHeaderError` is an error allocated on
the spot whose message carries the quoted header value, and it matches no
sentinel. -/
theorem validation_errors_typed {σ : Type} (std : Stdlib) (inner : Client σ) (c : Int)
    (r r' : Request) (resp : Response) (s s' : σ)
    (h : inner.Do r s = (.ok { req := r', resp := some resp, err := none }, s')) :
    (∀ out w e, (DecorateCheckStatus inner c).Do r s = (.ok out, w) → out.err = some e →
      e.Is ErrInvalidCode = true) ∧
    (∀ out w e, (DecorateCheckBody inner).Do r s = (.ok out, w) → out.err = some e →
      e = ErrMissingBody ∧ e.Is ErrMissingBody = true) ∧
    (∀ out w e, (DecorateCheckHeaderError std inner).Do r s = (.ok out, w) →
      out.err = some e →
      e = Error.errorString ("received errors in header: "
            ++ std.Quote (Header.Get std.CanonicalHeaderKey resp.Header "ERRORS")) ∧
      ∀ m, e.Is (Error.sentinel m) = false) := by
  refine ⟨?_, ?_, ?_⟩
  · intro out w e ho he
    simp only [ClientFunc.Do, DecorateCheckStatus, h] at ho
    split at ho
    · simp only [Prod.mk.injEq, Except.ok.injEq] at ho
      rw [← ho.1] at he
      simp only [Option.some.injEq] at he
      rw [← he]
      simp [invalidCodeError, Error.Is, ErrInvalidCode]
    · simp only [Prod.mk.injEq, Except.ok.injEq] at ho
      rw [← ho.1] at he
      simp at he
  · intro out w e ho he
    simp only [ClientFunc.Do, DecorateCheckBody, h] at ho
    split at ho
    · simp only [Prod.mk.injEq, Except.ok.injEq] at ho
      rw [← ho.1] at he
      simp only [Option.some.injEq] at he
      rw [← he]
      simp [Error.Is, ErrMissingBody]
    · simp only [Prod.mk.injEq, Except.ok.injEq] at ho
      rw [← ho.1] at he
      simp at he
  · intro out w e ho he
    simp only [ClientFunc.Do, DecorateCheckHeaderError, h] at ho
    split at ho
    · simp only [Prod.mk.injEq, Except.ok.injEq] at ho
      rw [← ho.1] at he
      simp only [Option.some.injEq] at he
      rw [← he]
      refine ⟨rfl, ?_⟩
      intro m
      simp [headerError, Error.Is]
    · simp only [Prod.mk.injEq, Except.ok.injEq] at ho
      rw [← ho.1] at he
      simp at he

/-- Witness of the amended C7: a response with status 404, the header
`Errors: boom` and no body makes each of the three checks fail. -/
theorem validation_errors_typed_witness :
    (invalidCodeError 200 404).Is ErrInvalidCode = true ∧
    (ErrMissingBody = ErrMissingBody ∧ ErrMissingBody.Is ErrMissingBody = true) ∧
    (Error.errorString "received errors in header: \"boom\""
        = Error.errorString ("received errors in header: "
            ++ Stdlib.sample.Quote
                (Header.Get Stdlib.sample.CanonicalHeaderKey (some flaggedHeader) "ERRORS")) ∧
      ∀ m, (Error.errorString "received errors in header: \"boom\"").Is (Error.sentinel m)
        = false) :=
  ⟨(validation_errors_typed Stdlib.sample (answering ⟨404, some flaggedHeader, none⟩) 200
      plainRequest plainRequest ⟨404, some flaggedHeader, none⟩ 0 1 rfl).1 _ _ _ rfl rfl,
   (validation_errors_typed Stdlib.sample (answering ⟨404, some flaggedHeader, none⟩) 200
      plainRequest plainRequest ⟨404, some flaggedHeader, none⟩ 0 1 rfl).2.1 _ _ _ rfl rfl,
   (validation_errors_typed Stdlib.sample (answering ⟨404, some flaggedHeader, none⟩) 200
      plainRequest plainRequest ⟨404, some flaggedHeader, none⟩ 0 1 rfl).2.2 _ _ _ rfl rfl⟩

/-- Adding under two keys with distinct canonical forms gives the same map in
either order. -/
theorem Header.add_add_eq_appendedBoth (canon : String → String) (h : Header)
    (k1 v1 k2 v2 : String) (hk : canon k1 ≠ canon k2) :
    Header.Add canon (Header.Add canon h k2 v2) k1 v1
        = Header.appendedBoth canon h k1 v1 k2 v2 ∧
    Header.Add canon (Header.Add canon h k1 v1) k2 v2
        = Header.appendedBoth canon h k1 v1 k2 v2 := by
  constructor
  · funext k
    by_cases h1 : k = canon k1
    · have h2 : ¬ canon k1 = canon k2 := hk
      simp [Header.Add, Header.appendedBoth, h1, h2]
    · simp [Header.Add, Header.appendedBoth, h1]
  · funext k
    by_cases h1 : k = canon k1
    · have h2 : ¬ canon k1 = canon k2 := hk
      simp [Header.Add, Header.appendedBoth, h1, h2]
    · by_cases h2 : k = canon k2
      · have h3 : ¬ canon k2 = canon k1 := fun e => hk e.symm
        simp [Header.Add, Header.appendedBoth, h2, h3]
      · simp [Header.Add, Header.appendedBoth, h1, h2]

/-- C8: for a request with a header map `h` and keys whose canonical forms
differ, the two nestings of two `DecorateWithHeader` invoke the inner client
once, on the same request: `r` with `v1` appended under `k1` and `v2` under
`k2`, the rest of `h` kept; so they return the same reply and leave the same
world. -/
theorem header_injections_commute {σ : Type} (std : Stdlib) (inner : Client σ)
    (k1 v1 k2 v2 : String) (r : Request) (h : Header) (log : List Request) (s : σ)
    (hh : r.Header = some h)
    (hk : std.CanonicalHeaderKey k1 ≠ std.CanonicalHeaderKey k2) :
    (DecorateWithHeader std (DecorateWithHeader std inner.traced k1 v1).toClient k2 v2).Do r
        (log, s)
      = ((inner.Do { r with Header := some (Header.appendedBoth std.CanonicalHeaderKey h k1 v1 k2 v2) } s).1,
         (log ++ [{ r with Header := some (Header.appendedBoth std.CanonicalHeaderKey h k1 v1 k2 v2) }],
          (inner.Do { r with Header := some (Header.appendedBoth std.CanonicalHeaderKey h k1 v1 k2 v2) } s).2)) ∧
    (DecorateWithHeader std (DecorateWithHeader std inner.traced k2 v2).toClient k1 v1).Do r
        (log, s)
      = (DecorateWithHeader std (DecorateWithHeader std inner.traced k1 v1).toClient k2 v2).Do
          r (log, s) ∧
    (DecorateWithHeader std (DecorateWithHeader std inner k2 v2).toClient k1 v1).Do r s
      = (DecorateWithHeader std (DecorateWithHeader std inner k1 v1).toClient k2 v2).Do r s := by
  have hadd := Header.add_add_eq_appendedBoth std.CanonicalHeaderKey h k1 v1 k2 v2 hk
  refine ⟨?_, ?_, ?_⟩
  · simp only [ClientFunc.Do, DecorateWithHeader, ClientFunc.toClient, hh, hadd.1,
      Client.traced_Do]
  · simp only [ClientFunc.Do, DecorateWithHeader, ClientFunc.toClient, hh, hadd.1, hadd.2]
  · simp only [ClientFunc.Do, DecorateWithHeader, ClientFunc.toClient, hh, hadd.1, hadd.2]

/-- Witness of C8: `x-a: 1` and `X-B: 2` added to an empty header map, in both
orders; the transport sees `X-A: 1` and `X-B: 2` and nothing else. -/
theorem header_injections_commute_witness :
    ((DecorateWithHeader Stdlib.sample
        (DecorateWithHeader Stdlib.sample (answering ⟨200, none, none⟩) "X-B" "2").toClient
        "x-a" "1").Do plainRequest 0
      = (DecorateWithHeader Stdlib.sample
          (DecorateWithHeader Stdlib.sample (answering ⟨200, none, none⟩) "x-a" "1").toClient
          "X-B" "2").Do plainRequest 0) ∧
    Header.appendedBoth Stdlib.sample.CanonicalHeaderKey Header.empty "x-a" "1" "X-B" "2" "X-A"
      = some ["1"] ∧
    Header.appendedBoth Stdlib.sample.CanonicalHeaderKey Header.empty "x-a" "1" "X-B" "2" "X-B"
      = some ["2"] ∧
    Header.appendedBoth Stdlib.sample.CanonicalHeaderKey Header.empty "x-a" "1" "X-B" "2" "x-a"
      = none :=
  ⟨(header_injections_commute Stdlib.sample (answering ⟨200, none, none⟩) "x-a" "1" "X-B" "2"
      plainRequest Header.empty [] 0 rfl (by decide)).2.2,
   by decide, by decide, by decide⟩

/-- C9: on a successful inner reply with response `resp`, the chain of the
example, `DecorateCheckBody (DecorateCheckHeaderError (DecorateCheckStatus inner c))`,
returns `resp` with the status error if the status differs from `c`, else the
header error carrying the `ERRORS` value if that value is not empty, else
`ErrMissingBody` if the body is absent, else no error.  With a wrong status and
an absent body, the status check nested inside the body check surfaces the
status error, and the body check nested inside the status check surfaces
`ErrMissingBody`. -/
theorem validation_order {σ : Type} (std : Stdlib) (inner : Client σ) (c : Int)
    (r r' : Request) (resp : Response) (s s' : σ)
    (h : inner.Do r s = (.ok { req := r', resp := some resp, err := none }, s')) :
    (DecorateCheckBody
        (DecorateCheckHeaderError std (DecorateCheckStatus inner c).toClient).toClient).Do r s
      = (.ok { req := r', resp := some resp, err := firstFailure std c resp }, s') ∧
    (resp.StatusCode ≠ c →
      firstFailure std c resp = some (invalidCodeError c resp.StatusCode)) ∧
    (resp.StatusCode = c →
      Header.Get std.CanonicalHeaderKey resp.Header "ERRORS" ≠ "" →
      firstFailure std c resp
        = some (headerError std.Quote
            (Header.Get std.CanonicalHeaderKey resp.Header "ERRORS"))) ∧
    (resp.StatusCode = c →
      Header.Get std.CanonicalHeaderKey resp.Header "ERRORS" = "" →
      resp.Body = none → firstFailure std c resp = some ErrMissingBody) ∧
    (resp.StatusCode = c →
      Header.Get std.CanonicalHeaderKey resp.Header "ERRORS" = "" →
      resp.Body ≠ none → firstFailure std c resp = none) ∧
    (resp.StatusCode ≠ c → resp.Body = none →
      (DecorateCheckBody (DecorateCheckStatus inner c).toClient).Do r s
        = (.ok { req := r', resp := some resp,
                 err := some (invalidCodeError c resp.StatusCode) }, s') ∧
      (DecorateCheckStatus (DecorateCheckBody inner).toClient c).Do r s
        = (.ok { req := r', resp := some resp, err := some ErrMissingBody }, s')) := by
  refine ⟨?_, ?_, ?_, ?_, ?_, ?_⟩
  · by_cases hc : resp.StatusCode = c
    · by_cases hg : Header.Get std.CanonicalHeaderKey resp.Header "ERRORS" = ""
      · by_cases hb : resp.Body = none
        · simp [ClientFunc.Do, ClientFunc.toClient, DecorateCheckBody,
            DecorateCheckHeaderError, DecorateCheckStatus, firstFailure, h, hc, hg, hb]
        · simp [ClientFunc.Do, ClientFunc.toClient, DecorateCheckBody,
            DecorateCheckHeaderError, DecorateCheckStatus, firstFailure, h, hc, hg, hb]
      · simp [ClientFunc.Do, ClientFunc.toClient, DecorateCheckBody,
          DecorateCheckHeaderError, DecorateCheckStatus, firstFailure, h, hc, hg]
    · simp [ClientFunc.Do, ClientFunc.toClient, DecorateCheckBody,
        DecorateCheckHeaderError, DecorateCheckStatus, firstFailure, h, hc]
  · intro hc
    simp [firstFailure, hc]
  · intro hc hg
    simp [firstFailure, hc, hg]
  · intro hc hg hb
    simp [firstFailure, hc, hg, hb]
  · intro hc hg hb
    simp [firstFailure, hc, hg, hb]
  · intro hc hb
    constructor
    · simp [ClientFunc.Do, ClientFunc.toClient, DecorateCheckBody, DecorateCheckStatus, h, hc]
    · simp [ClientFunc.Do, ClientFunc.toClient, DecorateCheckBody, DecorateCheckStatus, h, hb]

/-- Witness of C9: with status 404 and no body, expected 200, the two nestings
surface different errors; with status 200, the header `Errors: boom` and no
body, the chain of the example surfaces the header error. -/
theorem validation_order_witness :
    ((DecorateCheckBody (DecorateCheckStatus (answering ⟨404, none, none⟩) 200).toClient).Do
        plainRequest 0
      = (.ok { req := plainRequest, resp := some ⟨404, none, none⟩,
               err := some (invalidCodeError 200 404) }, 1) ∧
    (DecorateCheckStatus (DecorateCheckBody (answering ⟨404, none, none⟩)).toClient 200).Do
        plainRequest 0
      = (.ok { req := plainRequest, resp := some ⟨404, none, none⟩,
               err := some ErrMissingBody }, 1)) ∧
    ((DecorateCheckBody
        (DecorateCheckHeaderError Stdlib.sample
          (DecorateCheckStatus (answering ⟨200, some flaggedHeader, none⟩) 200).toClient).toClient).Do
        plainRequest 0
      = (.ok { req := plainRequest, resp := some ⟨200, some flaggedHeader, none⟩,
               err := firstFailure Stdlib.sample 200 ⟨200, some flaggedHeader, none⟩ }, 1)) ∧
    firstFailure Stdlib.sample 200 ⟨200, some flaggedHeader, none⟩
      = some (Error.errorString "received errors in header: \"boom\"") :=
  ⟨(validation_order Stdlib.sample (answering ⟨404, none, none⟩) 200 plainRequest plainRequest
      ⟨404, none, none⟩ 0 1 rfl).2.2.2.2.2 (by decide) rfl,
   (validation_order Stdlib.sample (answering ⟨200, some flaggedHeader, none⟩) 200 plainRequest
      plainRequest ⟨200, some flaggedHeader, none⟩ 0 1 rfl).1,
   by decide⟩

/-- C10 fails on the code: whenever the request ends with a nil response (its
construction fails, or the client returns a nil response with an error),
`GetValue` does not return the error: it panics on `resp.Body`, a nil
dereference. -/
theorem getValue_nil_response_panics {σ : Type} (std : Stdlib)
    (Decode : Bytes → MyType → Decoded MyType) (client : Client σ) (addr : String) (s : σ) :
    (∀ e, std.NewRequestWithContext (some Context.Background) "GET" addr none = .error e →
      GetValue std Decode client addr s = (.error Panic.nilDereference, s)) ∧
    (∀ req r' e s',
      std.NewRequestWithContext (some Context.Background) "GET" addr none = .ok req →
      client.Do req s = (.ok { req := r', resp := none, err := some e }, s') →
      GetValue std Decode client addr s = (.error Panic.nilDereference, s')) := by
  constructor
  · intro e h
    simp [GetValue, DoRequest, DoRequestWithContext, h]
  · intro req r' e s' h hd
    simp [GetValue, DoRequest, DoRequestWithContext, h, ClientFunc.toClient, ClientFunc.Do,
      DecorateDecodeJSON, hd]

/-- C10 at concrete inputs: an address without a protocol scheme, and a
transport that is down. -/
theorem getValue_nil_response_panics_witness :
    GetValue Stdlib.sample (overwriting ⟨"x", "y"⟩) (answering ⟨200, none, some []⟩) ":" 0
      = (.error Panic.nilDereference, 0) ∧
    GetValue Stdlib.sample (overwriting ⟨"x", "y"⟩) (failing (Error.foreign "down"))
        "http://example.com/my/api" 0
      = (.error Panic.nilDereference, 1) :=
  ⟨(getValue_nil_response_panics Stdlib.sample (overwriting ⟨"x", "y"⟩)
      (answering ⟨200, none, some []⟩) ":" 0).1 _ rfl,
   (getValue_nil_response_panics Stdlib.sample (overwriting ⟨"x", "y"⟩)
      (failing (Error.foreign "down")) "http://example.com/my/api" 0).2 _ _ _ _ rfl rfl⟩

end Httpx
